import Mathlib

/-!
# Verification of the Discord takeout event analyzer

A shallow embedding of `list.py` (the Discord JSON-export event analyzer) and
proofs about it.  Conventions:

* Python `datetime` instants are modelled as rationals `ℚ` (an arbitrary
  linearly ordered, subtraction-closed time axis with sub-second resolution;
  `total_seconds()` of a difference is the plain difference).
* JSON field values relevant to the program are strings, integers or `null`,
  modelled by `JVal`; Python truthiness of such a value is `JVal.truthy`.
* A parsed input line is `Line`: `malformed` (a `json.JSONDecodeError`, the
  line is skipped), `nonObj` (valid JSON that is not an object, on which
  `record.get` raises `AttributeError`), or `obj fields` (a JSON object,
  modelled as an association list with distinct keys, as produced by
  `json.loads`).
* Code paths that raise a Python exception are modelled with
  `Except String`, the error string naming the exception class.
* Python's `sorted` is a stable sort; a stable sort by a total preorder is
  extensionally unique, so it is modelled by `List.insertionSort` (stable,
  see `Mathlib.Data.List.Sort`).
-/

/-- A JSON scalar value as used by the analyzer's records. -/
inductive JVal where
  | str (s : String)
  | int (n : Int)
  | null
deriving DecidableEq, Repr

/-- Python truthiness of a JSON scalar: `""`, `0` and `None` are falsy. -/
def JVal.truthy : JVal → Bool
  | JVal.str s => s ≠ ""
  | JVal.int n => n ≠ 0
  | JVal.null => false

/-- Python truthiness of a `record.get(...)` result (`None` when absent). -/
def truthyOpt : Option JVal → Bool
  | none => false
  | some v => v.truthy

/-- `record.get(key)`: first matching key of the object, `None` when absent. -/
def getField : List (String × JVal) → String → Option JVal
  | [], _ => none
  | (k, v) :: rest, key => if k = key then some v else getField rest key

/-- Python `a or b` on two `record.get` results: `a` if truthy, else `b`. -/
def pyOrOpt (a b : Option JVal) : Option JVal :=
  if truthyOpt a then a else b

/-- Python `a or d` where `d` is a (truthy) default value. -/
def pyOr (a : Option JVal) (d : JVal) : JVal :=
  if truthyOpt a then a.getD d else d

/-- Python `int(x)` on a float/rational: truncation toward zero. -/
def pyInt (q : ℚ) : Int :=
  q.num.tdiv (q.den : Int)

/-- Python `divmod(a, b)` on integers: floored division and remainder. -/
def pyDivmod (a b : Int) : Int × Int :=
  (Int.fdiv a b, Int.fmod a b)

/-- `CALL_START_EVENTS` from the source (a set; only membership is used). -/
def CALL_START_EVENTS : List String :=
  ["join_call", "start_call", "voice_connection_success"]

/-- `CALL_END_EVENTS` from the source. -/
def CALL_END_EVENTS : List String :=
  ["voice_disconnect"]

/-- `STREAM_START_EVENT` from the source. -/
def STREAM_START_EVENT : String := "video_stream_started"

/-- `STREAM_END_EVENT` from the source. -/
def STREAM_END_EVENT : String := "video_stream_ended"

/-- `MESSAGE_EVENT` from the source. -/
def MESSAGE_EVENT : String := "send_message"

/-- `format_duration(seconds)`: convert seconds to an `Hh Mm Ss` string. -/
def format_duration (seconds : ℚ) : String :=
  let sec := pyInt seconds
  let hr := (pyDivmod sec 3600).1
  let rem := (pyDivmod sec 3600).2
  let m := (pyDivmod rem 60).1
  let s := (pyDivmod rem 60).2
  toString hr ++ "h " ++ toString m ++ "m " ++ toString s ++ "s"

/-- A call event tuple `(event_type, ts, context)` as appended by
`analyze_file` and consumed by `pair_call_events`. -/
abbrev CallEvent := String × ℚ × Option JVal

/-- A call session dict produced by `pair_call_events`.  The Python dict key
`"end"` is the field `stop` (`end` is a Lean keyword). -/
structure Session where
  start : ℚ
  stop : ℚ
  server : JVal
  duration_sec : ℚ
deriving DecidableEq, Repr

/-- The sort key of `sorted(events, key=lambda x: x[1])`: compare timestamps. -/
def leTs (a b : CallEvent) : Prop := a.2.1 ≤ b.2.1

instance : DecidableRel leTs :=
  fun a b => inferInstanceAs (Decidable (a.2.1 ≤ b.2.1))

instance : IsTotal CallEvent leTs := ⟨fun a b => le_total a.2.1 b.2.1⟩

instance : IsTrans CallEvent leTs := ⟨fun _ _ _ hab hbc => le_trans hab hbc⟩

/-- The scan loop of `pair_call_events` over the time-sorted events,
carrying the LIFO stack of open starts and emitting sessions in encounter
order of the closing end events. -/
def pairGo : List CallEvent → List (ℚ × Option JVal) → List Session
  | [], _ => []
  | (event_type, ts, context) :: rest, stack =>
    if event_type ∈ CALL_START_EVENTS then
      pairGo rest ((ts, context) :: stack)
    else if event_type ∈ CALL_END_EVENTS then
      match stack with
      | (start_ts, start_ctx) :: stack2 =>
        { start := start_ts, stop := ts,
          server := pyOr start_ctx (JVal.str "Unknown/DM"),
          duration_sec := ts - start_ts } :: pairGo rest stack2
      | [] => pairGo rest stack
    else pairGo rest stack

/-- `pair_call_events(events)`: stable-sort by timestamp, then match
start/end events LIFO into sessions. -/
def pair_call_events (events : List CallEvent) : List Session :=
  pairGo (List.insertionSort leTs events) []

/-- A message dict as appended by `analyze_file`. -/
structure Msg where
  timestamp : ℚ
  channel : Option JVal
  length : JVal
  word_count : JVal
deriving DecidableEq, Repr

/-- The accumulator state of the `analyze_file` loop: the `Counter` (an
insertion-ordered association list, as Python dicts preserve insertion
order), the call-event list and the message list. -/
structure AState where
  counters : List (JVal × Nat)
  call_events : List CallEvent
  messages : List Msg
deriving DecidableEq, Repr

/-- The empty accumulator the loop starts from. -/
def initState : AState := ⟨[], [], []⟩

/-- `counters[et] += 1` on a `Counter`: bump an existing key in place,
otherwise append it (Python dicts keep first-insertion order). -/
def incrCounter : List (JVal × Nat) → JVal → List (JVal × Nat)
  | [], k => [(k, 1)]
  | (k2, n) :: rest, k =>
    if k2 = k then (k2, n + 1) :: rest else (k2, n) :: incrCounter rest k

/-- One raw input line after `json.loads`. -/
inductive Line where
  | malformed
  | nonObj
  | obj (fields : List (String × JVal))
deriving DecidableEq, Repr

/-- Python `s.strip(chr(34))`: drop the quote character from both ends. -/
def stripQuotes (cs : List Char) : List Char :=
  ((cs.dropWhile (· = '\"')).reverse.dropWhile (· = '\"')).reverse

/-- Python `s.replace("Z", "+00:00")`: replace every occurrence. -/
def replaceZ : List Char → List Char
  | [] => []
  | c :: cs =>
    if c = 'Z' then '+' :: '0' :: '0' :: ':' :: '0' :: '0' :: replaceZ cs
    else c :: replaceZ cs

/-- A decimal digit, or `none`. -/
def readDigit (c : Char) : Option Nat :=
  if '0' ≤ c ∧ c ≤ '9' then some (c.toNat - 48) else none

/-- Read exactly `n` decimal digits into an accumulator. -/
def readDigits : Nat → Nat → List Char → Option (Nat × List Char)
  | 0, acc, cs => some (acc, cs)
  | n + 1, acc, c :: cs =>
    match readDigit c with
    | some d => readDigits n (acc * 10 + d) cs
    | none => none
  | _ + 1, _, [] => none

/-- Consume one expected character. -/
def expectChar (c : Char) : List Char → Option (List Char)
  | c2 :: cs => if c2 = c then some cs else none
  | [] => none

/-- Greedily read decimal digits, returning how many were read, their value,
and the rest. -/
def readDigitRun : List Char → Nat → Nat → Nat × Nat × List Char
  | [], cnt, acc => (cnt, acc, [])
  | c :: cs, cnt, acc =>
    match readDigit c with
    | some d => readDigitRun cs (cnt + 1) (acc * 10 + d)
    | none => (cnt, acc, c :: cs)

/-- Optional fractional-seconds part `.d{1,6}`, as a rational. -/
def readFrac : List Char → Option (ℚ × List Char)
  | '.' :: cs =>
    match readDigitRun cs 0 0 with
    | (cnt, acc, rest) =>
      if 1 ≤ cnt ∧ cnt ≤ 6 then some ((acc : ℚ) / ((10 : ℚ) ^ cnt), rest)
      else none
  | cs => some (0, cs)

/-- Optional UTC-offset part `±HH:MM`, in seconds. -/
def readOffset : List Char → Option (ℚ × List Char)
  | [] => some (0, [])
  | c :: cs =>
    if c = '+' ∨ c = '-' then
      match readDigits 2 0 cs with
      | none => none
      | some (oh, cs1) =>
        match expectChar ':' cs1 with
        | none => none
        | some cs2 =>
          match readDigits 2 0 cs2 with
          | none => none
          | some (om, cs3) =>
            if oh ≤ 23 ∧ om ≤ 59 then
              some ((if c = '-' then -1 else 1) * ((oh : ℚ) * 3600 + om * 60), cs3)
            else none
    else none

/-- The instant encoded by a validated date-time tuple.  The encoding is an
order embedding of the lexicographic tuple order into `ℚ` (months of 31
days); exact calendar arithmetic is irrelevant to the verified claims. -/
def dtVal (y mo d h mi s : Nat) (frac off : ℚ) : ℚ :=
  ((((y * 12 + (mo - 1)) * 31 + (d - 1)) * 86400 + h * 3600 + mi * 60 + s : Nat) : ℚ)
    + frac - off

/-- Modelled from the spec: Python's `datetime.fromisoformat` (standard
library, not part of `src/`), per §4.1: parses an ISO-8601-like string
`YYYY-MM-DD[{T or space}HH:MM:SS[.ffffff][±HH:MM]]` into an instant, and
fails (raises `ValueError`, here `none`) on any malformed input. -/
def fromisoformat (cs : List Char) : Option ℚ := do
  let (y, cs) ← readDigits 4 0 cs
  let cs ← expectChar '-' cs
  let (mo, cs) ← readDigits 2 0 cs
  let cs ← expectChar '-' cs
  let (d, cs) ← readDigits 2 0 cs
  if 1 ≤ mo ∧ mo ≤ 12 ∧ 1 ≤ d ∧ d ≤ 31 then
    match cs with
    | [] => some (dtVal y mo d 0 0 0 0 0)
    | sep :: cs1 =>
      if sep = 'T' ∨ sep = ' ' then do
        let (h, cs2) ← readDigits 2 0 cs1
        let cs3 ← expectChar ':' cs2
        let (mi, cs4) ← readDigits 2 0 cs3
        let cs5 ← expectChar ':' cs4
        let (s, cs6) ← readDigits 2 0 cs5
        if h ≤ 23 ∧ mi ≤ 59 ∧ s ≤ 59 then do
          let (frac, cs7) ← readFrac cs6
          let (off, cs8) ← readOffset cs7
          if cs8 = [] then some (dtVal y mo d h mi s frac off) else none
        else none
      else none
  else none

/-- The classification tail of the loop body: after the timestamp has been
parsed, route the record to `call_events`, `messages`, or nowhere. -/
def classify (st1 : AState) (fields : List (String × JVal)) (et : JVal) (dt : ℚ) :
    Except String AState :=
  match et with
  | JVal.str s =>
    if s ∈ CALL_START_EVENTS ∨ s ∈ CALL_END_EVENTS then
      Except.ok { st1 with call_events := st1.call_events ++
        [(s, dt, pyOrOpt (getField fields "guild_id") (getField fields "channel_id"))] }
    else if s = MESSAGE_EVENT then
      Except.ok { st1 with messages := st1.messages ++
        [{ timestamp := dt, channel := getField fields "channel",
           length := (getField fields "length").getD (JVal.int 0),
           word_count := (getField fields "word_count").getD (JVal.int 0) }] }
    else Except.ok st1
  | _ => Except.ok st1

/-- The loop body from the `ts = record.get("timestamp")` line on (the event
type has already been counted into `st1`).  A falsy timestamp `continue`s; a
non-string truthy timestamp has no `.strip` (`AttributeError`); a string one
is stripped of quotes, `Z`-normalized and parsed, a parse failure raising
`ValueError`. -/
def analyzeTyped (st1 : AState) (fields : List (String × JVal)) (et : JVal) :
    Except String AState :=
  match getField fields "timestamp" with
  | none => Except.ok st1
  | some tsv =>
    if tsv.truthy then
      match tsv with
      | JVal.str ts =>
        match fromisoformat (replaceZ (stripQuotes ts.toList)) with
        | none => Except.error "ValueError"
        | some dt => classify st1 fields et dt
      | _ => Except.error "AttributeError"
    else Except.ok st1

/-- One iteration of the `analyze_file` loop on one parsed line. -/
def analyzeStep (st : AState) (l : Line) : Except String AState :=
  match l with
  | Line.malformed => Except.ok st
  | Line.nonObj => Except.error "AttributeError"
  | Line.obj fields =>
    match getField fields "event_type" with
    | none => Except.ok st
    | some et =>
      if et.truthy then
        analyzeTyped { st with counters := incrCounter st.counters et } fields et
      else Except.ok st

/-- The `analyze_file` loop over all input lines. -/
def analyze_lines : List Line → AState → Except String AState
  | [], st => Except.ok st
  | l :: ls, st =>
    match analyzeStep st l with
    | Except.ok st2 => analyze_lines ls st2
    | Except.error e => Except.error e

/-- The sort key of the returned message list: timestamp descending. -/
def msgDesc (a b : Msg) : Prop := b.timestamp ≤ a.timestamp

instance : DecidableRel msgDesc :=
  fun a b => inferInstanceAs (Decidable (b.timestamp ≤ a.timestamp))

/-- `analyze_file`: run the loop from the empty state, then return the
accumulators, the messages sorted newest-first. -/
def analyze_file (lines : List Line) : Except String AState :=
  match analyze_lines lines initState with
  | Except.ok st =>
    Except.ok { st with messages := List.insertionSort msgDesc st.messages }
  | Except.error e => Except.error e

/-- One CSV data row written by `export_call_sessions`: the `Duration_Sec`
column holds `int(s[...])`, the truncated duration.  Timestamp cells hold
`.isoformat()` of the instant; since both exports apply the same injective
rendering to the same instant, the cells are compared as instants. -/
structure CsvRow where
  server : JVal
  start : ℚ
  stop : ℚ
  duration_readable : String
  duration_sec : Int
deriving DecidableEq, Repr

/-- One JSON record written by `export_call_sessions`: `duration_sec` holds
the untruncated duration. -/
structure JsonRec where
  server : JVal
  start : ℚ
  stop : ℚ
  duration_readable : String
  duration_sec : ℚ
deriving DecidableEq, Repr

/-- The CSV data rows of `export_call_sessions(sessions, ...)`. -/
def csvRows (sessions : List Session) : List CsvRow :=
  sessions.map fun s =>
    { server := s.server, start := s.start, stop := s.stop,
      duration_readable := format_duration s.duration_sec,
      duration_sec := pyInt s.duration_sec }

/-- The JSON records of `export_call_sessions(sessions, ...)`. -/
def jsonRecords (sessions : List Session) : List JsonRec :=
  sessions.map fun s =>
    { server := s.server, start := s.start, stop := s.stop,
      duration_readable := format_duration s.duration_sec,
      duration_sec := s.duration_sec }

/-- The sort key of `Counter.most_common`: count descending, stable. -/
def countDesc (a b : JVal × Nat) : Prop := b.2 ≤ a.2

instance : DecidableRel countDesc :=
  fun a b => inferInstanceAs (Decidable (b.2 ≤ a.2))

/-- Modelled from the spec: `collections.Counter.most_common` (standard
library, not part of `src/`), per §4.5: entries sorted descending by count,
ties broken by insertion order into the counter (both `sorted(...,
reverse=True)` and `heapq.nlargest` are stable this way); with `n` given,
the first `n` entries. -/
def most_common (c : List (JVal × Nat)) (n : Option Nat) : List (JVal × Nat) :=
  let ranked := List.insertionSort countDesc c
  match n with
  | none => ranked
  | some k => ranked.take k

/-! ## Properties of the call-session matcher -/

/-- Invariant of the matcher scan: on a time-sorted event list, with every
stacked start no later than every remaining event, every emitted session
starts no later than it ends, and its duration is the difference. -/
theorem pairGo_order (evs : List CallEvent) :
    ∀ stack : List (ℚ × Option JVal),
      List.Sorted leTs evs →
      (∀ p ∈ stack, ∀ e ∈ evs, p.1 ≤ e.2.1) →
      ∀ s ∈ pairGo evs stack, s.start ≤ s.stop ∧ s.duration_sec = s.stop - s.start := by
  induction evs with
  | nil => intro stack _ _ s hs; simp [pairGo] at hs
  | cons e rest ih =>
    intro stack hsorted hstack s hs
    obtain ⟨et, ts, ctx⟩ := e
    simp only [pairGo] at hs
    by_cases h1 : et ∈ CALL_START_EVENTS
    · rw [if_pos h1] at hs
      refine ih _ hsorted.of_cons ?_ s hs
      intro p hp e2 he2
      rcases List.mem_cons.mp hp with hp | hp
      · subst hp
        exact List.rel_of_sorted_cons hsorted e2 he2
      · exact hstack p hp e2 (List.mem_cons_of_mem _ he2)
    · rw [if_neg h1] at hs
      by_cases h2 : et ∈ CALL_END_EVENTS
      · rw [if_pos h2] at hs
        cases stack with
        | nil =>
          exact ih _ hsorted.of_cons
            (fun p hp => absurd hp (List.not_mem_nil p)) s hs
        | cons p stack2 =>
          obtain ⟨pts, pctx⟩ := p
          rcases List.mem_cons.mp hs with hs | hs
          · subst hs
            exact ⟨hstack (pts, pctx) (List.mem_cons_self _ _) (et, ts, ctx)
              (List.mem_cons_self _ _), rfl⟩
          · refine ih stack2 hsorted.of_cons ?_ s hs
            intro q hq e2 he2
            exact hstack q (List.mem_cons_of_mem _ hq) e2 (List.mem_cons_of_mem _ he2)
      · rw [if_neg h2] at hs
        refine ih stack hsorted.of_cons ?_ s hs
        intro p hp e2 he2
        exact hstack p hp e2 (List.mem_cons_of_mem _ he2)

/-- C1: on `[(start,t0,ctxA),(start,t1,ctxA),(end,t2),(end,t3)]` with
`t0<t1<t2<t3`, `pair_call_events` returns exactly two sessions,
`{ctxA, t1, t2}` then `{ctxA, t0, t3}`: LIFO pairing, emitted in the order
the closing end events are met during the time-ordered scan after a stable
ascending sort by timestamp. -/
theorem c1_lifo_pairing (t0 t1 t2 t3 : ℚ) (h01 : t0 < t1) (h12 : t1 < t2)
    (h23 : t2 < t3) :
    pair_call_events
      [("join_call", t0, some (JVal.str "ctxA")),
       ("join_call", t1, some (JVal.str "ctxA")),
       ("voice_disconnect", t2, none),
       ("voice_disconnect", t3, none)] =
    [⟨t1, t2, JVal.str "ctxA", t2 - t1⟩, ⟨t0, t3, JVal.str "ctxA", t3 - t0⟩] := by
  have hsorted : List.Sorted leTs
      [("join_call", t0, some (JVal.str "ctxA")),
       ("join_call", t1, some (JVal.str "ctxA")),
       ("voice_disconnect", t2, none),
       ("voice_disconnect", t3, none)] := by
    refine List.pairwise_cons.mpr ⟨?_, List.pairwise_cons.mpr ⟨?_,
      List.pairwise_cons.mpr ⟨?_, List.pairwise_singleton _ _⟩⟩⟩
    · intro b hb
      rcases List.mem_cons.mp hb with rfl | hb
      · exact h01.le
      rcases List.mem_cons.mp hb with rfl | hb
      · exact (h01.trans h12).le
      rw [List.mem_singleton] at hb
      subst hb
      exact (h01.trans (h12.trans h23)).le
    · intro b hb
      rcases List.mem_cons.mp hb with rfl | hb
      · exact h12.le
      rw [List.mem_singleton] at hb
      subst hb
      exact (h12.trans h23).le
    · intro b hb
      rw [List.mem_singleton] at hb
      subst hb
      exact h23.le
  rw [pair_call_events, List.Sorted.insertionSort_eq hsorted]
  simp [pairGo, CALL_START_EVENTS, CALL_END_EVENTS, pyOr, truthyOpt, JVal.truthy]

/-- Witness for C1 at `t0, t1, t2, t3 = 0, 1, 2, 3`. -/
theorem c1_lifo_pairing_witness :
    ((0:ℚ) < 1 ∧ (1:ℚ) < 2 ∧ (2:ℚ) < 3) ∧
    pair_call_events
      [("join_call", 0, some (JVal.str "ctxA")),
       ("join_call", 1, some (JVal.str "ctxA")),
       ("voice_disconnect", 2, none),
       ("voice_disconnect", 3, none)] =
    [⟨1, 2, JVal.str "ctxA", 2 - 1⟩, ⟨0, 3, JVal.str "ctxA", 3 - 0⟩] :=
  ⟨⟨by norm_num, by norm_num, by norm_num⟩,
    c1_lifo_pairing 0 1 2 3 (by norm_num) (by norm_num) (by norm_num)⟩

/-- C6: every session emitted by `pair_call_events` satisfies
`start ≤ end` and `duration_sec = end - start ≥ 0`; when `start = end` the
duration is `0` and `format_duration` renders it `"0h 0m 0s"`. -/
theorem c6_session_order (events : List CallEvent) (s : Session)
    (hs : s ∈ pair_call_events events) :
    s.start ≤ s.stop ∧ s.duration_sec = s.stop - s.start ∧ 0 ≤ s.duration_sec ∧
      (s.start = s.stop →
        s.duration_sec = 0 ∧ format_duration s.duration_sec = "0h 0m 0s") := by
  obtain ⟨hle, hdur⟩ := pairGo_order (List.insertionSort leTs events) []
    (List.sorted_insertionSort leTs events)
    (fun p hp => absurd hp (List.not_mem_nil p)) s hs
  refine ⟨hle, hdur, by rw [hdur]; linarith, ?_⟩
  intro heq
  have h0 : s.duration_sec = 0 := by rw [hdur, heq, sub_self]
  exact ⟨h0, by rw [h0]; rfl⟩

/-- Witness for C6 on a zero-duration session from two events at time `5`. -/
theorem c6_session_order_witness :
    (⟨5, 5, JVal.str "A", 5 - 5⟩ : Session) ∈
      pair_call_events
        [("join_call", 5, some (JVal.str "A")), ("voice_disconnect", 5, none)] ∧
    format_duration ((⟨5, 5, JVal.str "A", 5 - 5⟩ : Session).duration_sec) =
      "0h 0m 0s" :=
  ⟨List.Mem.head _,
    ((c6_session_order
      [("join_call", 5, some (JVal.str "A")), ("voice_disconnect", 5, none)]
      ⟨5, 5, JVal.str "A", 5 - 5⟩ (List.Mem.head _)).2.2.2 rfl).2⟩

/-- C7: `pair_call_events` never raises and silently drops unmatched
events: a lone end event yields no session (end on an empty stack is
discarded), and a lone start event yields no session (starts left on the
stack are dropped). -/
theorem c7_dangling_events (t0 : ℚ) (ctx : Option JVal) :
    pair_call_events [("voice_disconnect", t0, ctx)] = [] ∧
    pair_call_events [("join_call", t0, ctx)] = [] := by
  constructor <;>
  · rw [pair_call_events, List.Sorted.insertionSort_eq (List.sorted_singleton _)]
    simp [pairGo, CALL_START_EVENTS, CALL_END_EVENTS]

/-- Invariant of the matcher scan for the server field: if every remaining
event's context and every stacked context is falsy, every emitted session's
server is `"Unknown/DM"`. -/
theorem pairGo_server (evs : List CallEvent) :
    ∀ stack : List (ℚ × Option JVal),
      (∀ e ∈ evs, truthyOpt e.2.2 = false) →
      (∀ p ∈ stack, truthyOpt p.2 = false) →
      ∀ s ∈ pairGo evs stack, s.server = JVal.str "Unknown/DM" := by
  induction evs with
  | nil => intro stack _ _ s hs; simp [pairGo] at hs
  | cons e rest ih =>
    intro stack hevs hstack s hs
    obtain ⟨et, ts, ctx⟩ := e
    simp only [pairGo] at hs
    by_cases h1 : et ∈ CALL_START_EVENTS
    · rw [if_pos h1] at hs
      refine ih _ (fun e2 he2 => hevs e2 (List.mem_cons_of_mem _ he2)) ?_ s hs
      intro p hp
      rcases List.mem_cons.mp hp with hp | hp
      · subst hp; exact hevs (et, ts, ctx) (List.mem_cons_self _ _)
      · exact hstack p hp
    · rw [if_neg h1] at hs
      by_cases h2 : et ∈ CALL_END_EVENTS
      · rw [if_pos h2] at hs
        cases stack with
        | nil =>
          exact ih _ (fun e2 he2 => hevs e2 (List.mem_cons_of_mem _ he2))
            (fun p hp => absurd hp (List.not_mem_nil p)) s hs
        | cons p stack2 =>
          obtain ⟨pts, pctx⟩ := p
          rcases List.mem_cons.mp hs with hs | hs
          · subst hs
            have hc := hstack (pts, pctx) (List.mem_cons_self _ _)
            show pyOr pctx (JVal.str "Unknown/DM") = JVal.str "Unknown/DM"
            rw [pyOr]
            simp only at hc
            rw [hc]
            rfl
          · exact ih stack2 (fun e2 he2 => hevs e2 (List.mem_cons_of_mem _ he2))
              (fun q hq => hstack q (List.mem_cons_of_mem _ hq)) s hs
      · rw [if_neg h2] at hs
        exact ih stack (fun e2 he2 => hevs e2 (List.mem_cons_of_mem _ he2)) hstack s hs

/-- C9: whenever every event's context is falsy (absent/`None`, the empty
string, ...), every session emitted by `pair_call_events` has server
`"Unknown/DM"` — the `or` default kicks in on any falsy context, not only
an absent one. -/
theorem c9_falsy_context_unknown_dm (events : List CallEvent)
    (h : ∀ e ∈ events, truthyOpt e.2.2 = false) :
    ∀ s ∈ pair_call_events events, s.server = JVal.str "Unknown/DM" :=
  pairGo_server _ []
    (fun e he => h e ((List.perm_insertionSort leTs events).subset he))
    (fun p hp => absurd hp (List.not_mem_nil p))

/-- Witness for C9 on a start carrying the empty-string context. -/
theorem c9_falsy_context_unknown_dm_witness :
    (∀ e ∈ ([("join_call", (0:ℚ), some (JVal.str "")),
        ("voice_disconnect", 1, none)] : List CallEvent),
      truthyOpt e.2.2 = false) ∧
    ∀ s ∈ pair_call_events
        [("join_call", (0:ℚ), some (JVal.str "")), ("voice_disconnect", 1, none)],
      s.server = JVal.str "Unknown/DM" :=
  ⟨by decide, c9_falsy_context_unknown_dm _ (by decide)⟩

/-! ## Properties of the streaming aggregation -/

/-- The total of all frequencies in the counter (`sum(counts.values())`). -/
def sumCounts (c : List (JVal × Nat)) : Nat :=
  (c.map fun p => p.2).sum

/-- A line that parses as a JSON object carrying an `event_type` field
(present with any value) — the reading of the claim as stated. -/
def hasEventTypeField : Line → Bool
  | Line.obj fields => (getField fields "event_type").isSome
  | _ => false

/-- A line that parses as a JSON object whose `event_type` field is present
and truthy — the lines the loop actually counts. -/
def countedLine : Line → Bool
  | Line.obj fields => truthyOpt (getField fields "event_type")
  | _ => false

/-- Bumping one key raises the counter total by exactly one. -/
theorem sumCounts_incrCounter (c : List (JVal × Nat)) (k : JVal) :
    sumCounts (incrCounter c k) = sumCounts c + 1 := by
  induction c with
  | nil => rfl
  | cons p rest ih =>
    obtain ⟨k2, n⟩ := p
    simp only [incrCounter]
    by_cases h : k2 = k
    · rw [if_pos h]
      simp only [sumCounts, List.map_cons, List.sum_cons]
      omega
    · rw [if_neg h]
      simp only [sumCounts, List.map_cons, List.sum_cons] at ih ⊢
      omega

/-- The classification tail never touches the counter. -/
theorem classify_counters (st1 : AState) (fields : List (String × JVal))
    (et : JVal) (dt : ℚ) (st2 : AState)
    (h : classify st1 fields et dt = Except.ok st2) :
    st2.counters = st1.counters := by
  cases et with
  | str s =>
    rw [classify] at h
    split at h
    · rw [← Except.ok.inj h]
    · split at h
      · rw [← Except.ok.inj h]
      · rw [← Except.ok.inj h]
  | int n => rw [← Except.ok.inj h]
  | null => rw [← Except.ok.inj h]

/-- The timestamp-handling tail never touches the counter. -/
theorem analyzeTyped_counters (st1 : AState) (fields : List (String × JVal))
    (et : JVal) (st2 : AState)
    (h : analyzeTyped st1 fields et = Except.ok st2) :
    st2.counters = st1.counters := by
  rw [analyzeTyped] at h
  split at h
  · rw [← Except.ok.inj h]
  · split at h
    · split at h
      · split at h
        · exact absurd h (by simp)
        · exact classify_counters _ _ _ _ _ h
      · exact absurd h (by simp)
    · rw [← Except.ok.inj h]

/-- One successful loop iteration adds exactly one to the counter total
when the line's `event_type` is present and truthy, and nothing otherwise. -/
theorem analyzeStep_sumCounts (st : AState) (l : Line) (st2 : AState)
    (h : analyzeStep st l = Except.ok st2) :
    sumCounts st2.counters =
      sumCounts st.counters + (if countedLine l then 1 else 0) := by
  cases l with
  | malformed =>
    rw [← Except.ok.inj h]
    simp [countedLine]
  | nonObj => exact absurd h (by simp [analyzeStep])
  | obj fields =>
    simp only [analyzeStep] at h
    split at h
    · next heq =>
      rw [← Except.ok.inj h]
      simp [countedLine, heq, truthyOpt]
    · next et heq =>
      split at h
      · next ht =>
        have hc := analyzeTyped_counters _ _ _ _ h
        rw [hc]
        simp only [countedLine, heq, truthyOpt, ht, if_true]
        exact sumCounts_incrCounter st.counters et
      · next ht =>
        rw [← Except.ok.inj h]
        simp [countedLine, heq, truthyOpt, ht]

/-- Splitting an `analyze_lines` run at a list append. -/
theorem analyze_lines_append (pre post : List Line) (st0 : AState) :
    analyze_lines (pre ++ post) st0 =
      match analyze_lines pre st0 with
      | Except.ok st => analyze_lines post st
      | Except.error e => Except.error e := by
  induction pre generalizing st0 with
  | nil => rfl
  | cons l ls ih =>
    simp only [List.cons_append, analyze_lines]
    cases analyzeStep st0 l with
    | ok st2 => exact ih st2
    | error e => rfl

/-- A successful run counts, in total, exactly the lines whose `event_type`
is present and truthy. -/
theorem analyze_lines_sumCounts (lines : List Line) :
    ∀ st st2 : AState, analyze_lines lines st = Except.ok st2 →
      sumCounts st2.counters = sumCounts st.counters + lines.countP countedLine := by
  induction lines with
  | nil =>
    intro st st2 h
    rw [← Except.ok.inj h]
    simp
  | cons l ls ih =>
    intro st st2 h
    simp only [analyze_lines] at h
    cases hstep : analyzeStep st l with
    | error e => rw [hstep] at h; exact absurd h (by simp)
    | ok stm =>
      rw [hstep] at h
      have h1 := analyzeStep_sumCounts st l stm hstep
      have h2 := ih stm st2 h
      rw [h2, h1, List.countP_cons]
      cases hc : countedLine l with
      | false => simp [hc]
      | true => simp [hc]; omega

/-- C3 fails as stated: a line whose `event_type` field is present but
empty parses as an object carrying the field, yet is not counted — the run
below ends with counter total `0` while one line carries the field. -/
theorem c3_counterexample :
    analyze_lines [Line.obj [("event_type", JVal.str "")]] initState =
      Except.ok initState ∧
    sumCounts initState.counters ≠
      [Line.obj [("event_type", JVal.str "")]].countP hasEventTypeField :=
  ⟨rfl, by decide⟩

/-- C3 (amended): after a successful `analyze_file` run, the sum of all
values in `event_counts` equals the number of input lines that parse as a
JSON object whose `event_type` field is present AND truthy (a falsy value,
e.g. the empty string, is not counted). -/
theorem c3_amended_event_count (lines : List Line) (st : AState)
    (h : analyze_lines lines initState = Except.ok st) :
    sumCounts st.counters = lines.countP countedLine := by
  have h2 := analyze_lines_sumCounts lines initState st h
  simpa [initState, sumCounts] using h2

/-- Witness for the amended C3 on a one-line input. -/
theorem c3_amended_event_count_witness :
    analyze_lines [Line.obj [("event_type", JVal.str "x")]] initState =
      Except.ok ⟨[(JVal.str "x", 1)], [], []⟩ ∧
    sumCounts (AState.counters ⟨[(JVal.str "x", 1)], [], []⟩) =
      [Line.obj [("event_type", JVal.str "x")]].countP countedLine :=
  ⟨rfl, c3_amended_event_count _ _ rfl⟩

/-- C4: a line whose record has a truthy `event_type` but no `timestamp`
field increments the frequency counter for that type, and appends the
record to neither the call-event list nor the message list. -/
theorem c4_missing_timestamp (st : AState) (fields : List (String × JVal))
    (et : JVal) (h1 : getField fields "event_type" = some et)
    (h2 : et.truthy = true) (h3 : getField fields "timestamp" = none) :
    analyzeStep st (Line.obj fields) =
      Except.ok { counters := incrCounter st.counters et,
                  call_events := st.call_events,
                  messages := st.messages } := by
  simp only [analyzeStep, h1, h2, if_true, analyzeTyped, h3]

/-- Witness for C4 on a record carrying only an `event_type`. -/
theorem c4_missing_timestamp_witness :
    getField [("event_type", JVal.str "join_call")] "event_type" =
        some (JVal.str "join_call") ∧
    (JVal.str "join_call").truthy = true ∧
    getField [("event_type", JVal.str "join_call")] "timestamp" = none ∧
    analyzeStep initState (Line.obj [("event_type", JVal.str "join_call")]) =
      Except.ok { counters := incrCounter initState.counters (JVal.str "join_call"),
                  call_events := initState.call_events,
                  messages := initState.messages } :=
  ⟨rfl, rfl, rfl, c4_missing_timestamp initState _ _ rfl rfl rfl⟩

/-- C5: a line with a valid `event_type` and a present, truthy, but
unparseable timestamp string makes the run raise (`ValueError` from the
timestamp parse propagates out) instead of skipping the record. -/
theorem c5_unparseable_timestamp_raises :
    analyze_lines
      [Line.obj [("event_type", JVal.str "join_call"),
                 ("timestamp", JVal.str "not-a-date")]] initState =
      Except.error "ValueError" := rfl

/-- C10: a line that parses as a JSON object whose `event_type` is present
but falsy is skipped entirely: the step leaves the state untouched, and
inserting such a line anywhere in the input changes neither the loop result
nor the `analyze_file` result — the same treatment as a missing
`event_type`. -/
theorem c10_falsy_event_type_skipped (fields : List (String × JVal))
    (h : truthyOpt (getField fields "event_type") = false) :
    (∀ st, analyzeStep st (Line.obj fields) = Except.ok st) ∧
    (∀ pre post st0,
        analyze_lines (pre ++ Line.obj fields :: post) st0 =
          analyze_lines (pre ++ post) st0) ∧
    (∀ pre post,
        analyze_file (pre ++ Line.obj fields :: post) =
          analyze_file (pre ++ post)) := by
  have hstep : ∀ st, analyzeStep st (Line.obj fields) = Except.ok st := by
    intro st
    simp only [analyzeStep]
    cases hg : getField fields "event_type" with
    | none => rfl
    | some et =>
      rw [hg] at h
      simp only [truthyOpt] at h
      simp [h]
  have hlines : ∀ pre post st0,
      analyze_lines (pre ++ Line.obj fields :: post) st0 =
        analyze_lines (pre ++ post) st0 := by
    intro pre post st0
    rw [analyze_lines_append, analyze_lines_append]
    cases analyze_lines pre st0 with
    | ok st => simp only [analyze_lines, hstep st]
    | error e => rfl
  refine ⟨hstep, hlines, ?_⟩
  intro pre post
  simp only [analyze_file, hlines pre post initState]

/-- Witness for C10 on an empty-string `event_type`. -/
theorem c10_falsy_event_type_skipped_witness :
    truthyOpt (getField [("event_type", JVal.str "")] "event_type") = false ∧
    analyzeStep initState (Line.obj [("event_type", JVal.str "")]) =
      Except.ok initState :=
  ⟨rfl,
    (c10_falsy_event_type_skipped [("event_type", JVal.str "")] rfl).1 initState⟩

/-! ## Properties of the exports and the top-N report -/

/-- C2 fails as stated: on a half-second session the CSV `Duration_Sec`
cell holds the truncation `int(0.5) = 0` while the JSON `duration_sec`
holds `0.5` — a value difference, not a float-formatting one.  Such a
session is reachable: sub-second timestamps produce fractional
`total_seconds()`. -/
theorem c2_export_counterexample :
    (csvRows [⟨0, 1/2, JVal.str "A", 1/2⟩]).map
        (fun r => (r.duration_sec : ℚ)) ≠
      (jsonRecords [⟨0, 1/2, JVal.str "A", 1/2⟩]).map
        (fun r => r.duration_sec) := by
  simp only [csvRows, jsonRecords, List.map_cons, List.map_nil, ne_eq,
    List.cons.injEq, and_true, not_and]
  intro h
  have h2 : (2 : ℚ) * (pyInt (1/2) : ℚ) = 1 := by rw [h]; norm_num
  have h3 : (2 : ℤ) * pyInt (1/2) = 1 := by exact_mod_cast h2
  omega

/-- C2 (amended): row for row, the CSV and JSON exports agree on `server`,
`start`, `end` and the readable duration; the CSV `Duration_Sec` is the
integer truncation of the JSON `duration_sec`, so the two agree exactly
when the duration is a whole number of seconds. -/
theorem c2_export_row_agreement (sessions : List Session) (i : Nat)
    (h1 : i < (csvRows sessions).length)
    (h2 : i < (jsonRecords sessions).length) :
    (csvRows sessions)[i].server = (jsonRecords sessions)[i].server ∧
    (csvRows sessions)[i].start = (jsonRecords sessions)[i].start ∧
    (csvRows sessions)[i].stop = (jsonRecords sessions)[i].stop ∧
    (csvRows sessions)[i].duration_readable =
      (jsonRecords sessions)[i].duration_readable ∧
    (csvRows sessions)[i].duration_sec =
      pyInt ((jsonRecords sessions)[i].duration_sec) ∧
    (((jsonRecords sessions)[i].duration_sec).den = 1 →
      ((csvRows sessions)[i].duration_sec : ℚ) =
        (jsonRecords sessions)[i].duration_sec) := by
  simp only [csvRows, jsonRecords, List.getElem_map]
  refine ⟨trivial, trivial, trivial, trivial, trivial, ?_⟩
  intro hden
  rw [pyInt, hden]
  push_cast
  rw [Int.tdiv_one]
  exact Rat.coe_int_num_of_den_eq_one hden

/-- Witness for the amended C2 on a one-session list with a 2-second call. -/
theorem c2_export_row_agreement_witness :
    0 < (csvRows [⟨0, 2, JVal.str "A", 2⟩]).length ∧
    (csvRows [⟨0, 2, JVal.str "A", 2⟩])[0].server =
      (jsonRecords [⟨0, 2, JVal.str "A", 2⟩])[0].server ∧
    (csvRows [⟨0, 2, JVal.str "A", 2⟩])[0].duration_sec =
      pyInt ((jsonRecords [⟨0, 2, JVal.str "A", 2⟩])[0].duration_sec) :=
  ⟨by simp [csvRows],
    (c2_export_row_agreement [⟨0, 2, JVal.str "A", 2⟩] 0
      (by simp [csvRows]) (by simp [jsonRecords])).1,
    (c2_export_row_agreement [⟨0, 2, JVal.str "A", 2⟩] 0
      (by simp [csvRows]) (by simp [jsonRecords])).2.2.2.2.1⟩

/-- C8: top-N selection over the frequency counter is tie-stable by
insertion order: with counts `a ↦ 5, b ↦ 5, c ↦ 3` and `a` first
encountered before `b`, the top 2 are `a` then `b`, never `c`. -/
theorem c8_topn_tie_stable :
    most_common [(JVal.str "a", 5), (JVal.str "b", 5), (JVal.str "c", 3)]
        (some 2) =
      [(JVal.str "a", 5), (JVal.str "b", 5)] := by decide
